import Mathlib

/-!
Shallow embedding of the attack subsystem of the GREATX repository
(`graphwar/attack/backdoor/backdoor_attacker.py`, the targeted
structure-attack budget loop, and `graphwar/utils/cka.py`), together
with theorems settling the specification claims about it.
-/

/-- Error taxonomy of the attack subsystem (spec §7).  The Python source
raises `RuntimeError`/`ValueError`; the spec names these situations
`NotReadyError` and `BudgetExceeded`. -/
inductive AttackError where
  | NotReadyError
  | BudgetExceeded
  deriving DecidableEq, Repr

/-- A DGL-style directed multigraph: a node count, one dense feature row
per node, and an ordered edge list (spec §3 `Graph`). -/
structure Graph where
  num_nodes : Nat
  features : List (List ℚ)
  edges : List (Nat × Nat)
  deriving DecidableEq, Repr

/-- `DGLGraph.add_nodes(1, data={feat: row})`: append one node whose
feature row is `row`. -/
def Graph.addNode (g : Graph) (row : List ℚ) : Graph :=
  { g with num_nodes := g.num_nodes + 1, features := g.features ++ [row] }

/-- `DGLGraph.add_edges(u, v)`: append the directed edge `(u, v)`. -/
def Graph.addEdge (g : Graph) (u v : Nat) : Graph :=
  { g with edges := g.edges ++ [(u, v)] }

/-- Session state of `BackdoorAttacker`: the input graph held by the
base `Attacker` (never reassigned), the feature dimensionality
`num_feats`, and the mutable lifecycle fields assigned by `reset` and
`attack` in `backdoor_attacker.py`. -/
structure BackdoorAttacker where
  graph : Graph
  num_feats : Nat
  num_budgets : Option Nat
  trigger_vec : Option (List ℚ)
  targets_class : Option (List Int)
  is_reseted : Bool
  deriving DecidableEq, Repr

/-- `BackdoorAttacker.reset` (`backdoor_attacker.py` lines 13-26):
clears `num_budgets` and the trigger, sets `is_reseted`, and returns
the attacker itself. -/
def BackdoorAttacker.reset (s : BackdoorAttacker) : BackdoorAttacker :=
  { s with num_budgets := none, trigger_vec := none, is_reseted := true }

/-- Modelled from the spec: `Attacker._check_budget` lives in the base
class `graphwar/attack/attacker.py`, which is not among the provided
source files.  Spec §4.2/§4.5: `attack` "validates `num_budgets`
against the feature-dimensionality budget (cannot exceed `num_feats`)"
and "requesting `num_budgets` exceeding feature dimensionality →
`BudgetExceeded`"; the validated budget is returned.  The fractional
resolution of §4.2 concerns fractional inputs only and is not
exercised by integer budgets. -/
def check_budget (num_budgets max_perturbations : Nat) : Except AttackError Nat :=
  if max_perturbations < num_budgets then .error .BudgetExceeded
  else .ok num_budgets

/-- `BackdoorAttacker.attack` (`backdoor_attacker.py` lines 28-44).
The first component is the raised error, if any; the second is the
session state after the call (raises happen before any field
assignment, so on error the state is the input state). -/
def BackdoorAttacker.attack (s : BackdoorAttacker) (num_budgets : Nat) (tc : Int) :
    Option AttackError × BackdoorAttacker :=
  if s.is_reseted = false then (some .NotReadyError, s)
  else
    match check_budget num_budgets s.num_feats with
    | .error e => (some e, s)
    | .ok nb =>
        (none, { s with num_budgets := some nb, targets_class := some [tc],
                        is_reseted := false })

/-- `BackdoorAttacker.g` (`backdoor_attacker.py` lines 50-76): on a
local copy (`local_var`) of the stored graph, append one node carrying
the trigger row, add edge `(num_nodes, target_node)`, mirror it when
`symmetric`, and add the self-loop `(num_nodes, num_nodes)`.  When no
trigger is stored the Python `self.trigger().view(1, -1)` raises, hence
`none`. -/
def BackdoorAttacker.g (s : BackdoorAttacker) (target_node : Nat) (symmetric : Bool) :
    Option Graph :=
  match s.trigger_vec with
  | none => none
  | some data =>
    let graph := s.graph
    let num_nodes := graph.num_nodes
    let g1 := graph.addNode data
    let g2 := g1.addEdge num_nodes target_node
    let g3 := if symmetric then g2.addEdge target_node num_nodes else g2
    some (g3.addEdge num_nodes num_nodes)

/-- One call in a session's lifecycle: `reset()`, `attack(...)` or the
materialisation `g(...)`. -/
inductive AttackOp where
  | reset
  | attack (num_budgets : Nat) (tc : Int)
  | materialize (target_node : Nat) (symmetric : Bool)
  deriving DecidableEq, Repr

/-- Effect of one call on the session state.  `g` builds its result on
a `local_var` copy and assigns no session field, so `materialize`
leaves the state unchanged. -/
def BackdoorAttacker.step (s : BackdoorAttacker) : AttackOp → BackdoorAttacker
  | .reset => s.reset
  | .attack nb tc => (s.attack nb tc).2
  | .materialize _ _ => s

/-- Run a sequence of lifecycle calls from a session state. -/
def BackdoorAttacker.run (s : BackdoorAttacker) (ops : List AttackOp) : BackdoorAttacker :=
  ops.foldl BackdoorAttacker.step s

theorem attack_snd_graph (s : BackdoorAttacker) (nb : Nat) (tc : Int) :
    (s.attack nb tc).2.graph = s.graph := by
  unfold BackdoorAttacker.attack
  split
  · rfl
  · rcases h : check_budget nb s.num_feats with e | v <;> simp [h]

theorem step_graph (s : BackdoorAttacker) (op : AttackOp) :
    (s.step op).graph = s.graph := by
  cases op with
  | reset => rfl
  | attack nb tc => exact attack_snd_graph s nb tc
  | materialize t sym => rfl

/-- C4: the attacker's stored input graph is never mutated: any
sequence of `reset`, `attack` and `g` calls leaves `s.graph`
structurally equal to its initial snapshot (`g` mutates only a local
copy). -/
theorem backdoor_graph_never_mutated (s : BackdoorAttacker) (ops : List AttackOp) :
    (s.run ops).graph = s.graph := by
  induction ops generalizing s with
  | nil => rfl
  | cons op rest ih =>
      show ((s.step op).run rest).graph = s.graph
      rw [ih, step_graph]

/-- C7: `reset()` clears `num_budgets` and the trigger, marks the
session `Ready` (`is_reseted = true`), leaves the graph, feature
dimensionality and bound target class untouched, and the returned
session is the attacker itself (the same session, updated in place). -/
theorem backdoor_reset_spec (s : BackdoorAttacker) :
    s.reset.num_budgets = none ∧ s.reset.trigger_vec = none ∧
    s.reset.is_reseted = true ∧ s.reset.graph = s.graph ∧
    s.reset.num_feats = s.num_feats ∧ s.reset.targets_class = s.targets_class := by
  refine ⟨rfl, rfl, rfl, rfl, rfl, rfl⟩

/-- C2: on an `Unreset` session (`is_reseted = false`), `attack` raises
`NotReadyError` and returns the session unchanged. -/
theorem backdoor_attack_unreset (s : BackdoorAttacker) (nb : Nat) (tc : Int)
    (h : s.is_reseted = false) :
    s.attack nb tc = (some AttackError.NotReadyError, s) := by
  unfold BackdoorAttacker.attack
  simp [h]

/-- A concrete unreset session used by several witnesses. -/
def sampleGraph : Graph :=
  ⟨2, [[1, 0], [0, 1]], [(0, 1), (1, 0)]⟩

def sampleUnreset : BackdoorAttacker :=
  ⟨sampleGraph, 2, none, none, none, false⟩

def sampleReady : BackdoorAttacker :=
  ⟨sampleGraph, 2, none, none, none, true⟩

theorem backdoor_attack_unreset_witness :
    sampleUnreset.is_reseted = false ∧
    sampleUnreset.attack 1 0 = (some AttackError.NotReadyError, sampleUnreset) :=
  ⟨rfl, backdoor_attack_unreset sampleUnreset 1 0 rfl⟩

/-- C5: `attack` is atomic on rejection: whenever it raises (either
error), every session field — `num_budgets`, the trigger,
`targets_class`, `is_reseted` — is unchanged, since both raises happen
before any assignment. -/
theorem backdoor_attack_atomic (s : BackdoorAttacker) (nb : Nat) (tc : Int)
    (e : AttackError) (s' : BackdoorAttacker)
    (h : s.attack nb tc = (some e, s')) : s' = s := by
  unfold BackdoorAttacker.attack at h
  split at h
  · exact (Prod.mk.injEq _ _ _ _ ▸ h).2.symm
  · rcases hc : check_budget nb s.num_feats with e' | v <;> rw [hc] at h
    · exact (Prod.mk.injEq _ _ _ _ ▸ h).2.symm
    · exact absurd (Prod.mk.injEq _ _ _ _ ▸ h).1 (by simp)

theorem backdoor_attack_atomic_witness :
    sampleUnreset.attack 1 0 = (some AttackError.NotReadyError, sampleUnreset) ∧
    sampleUnreset = sampleUnreset :=
  ⟨rfl, backdoor_attack_atomic sampleUnreset 1 0 AttackError.NotReadyError
    sampleUnreset rfl⟩

/-- C3: on a reset session, requesting `num_budgets` exceeding the
feature dimensionality `num_feats` raises `BudgetExceeded`. -/
theorem backdoor_attack_budget_exceeded (s : BackdoorAttacker) (nb : Nat) (tc : Int)
    (hr : s.is_reseted = true) (hb : s.num_feats < nb) :
    s.attack nb tc = (some AttackError.BudgetExceeded, s) := by
  unfold BackdoorAttacker.attack
  rw [hr]
  simp [check_budget, hb]

theorem backdoor_attack_budget_exceeded_witness :
    sampleReady.is_reseted = true ∧ sampleReady.num_feats < 3 ∧
    sampleReady.attack 3 0 = (some AttackError.BudgetExceeded, sampleReady) :=
  ⟨rfl, by decide, backdoor_attack_budget_exceeded sampleReady 3 0 rfl (by decide)⟩

/-- C8: on a reset session with a valid budget (`nb ≤ num_feats`),
`attack` succeeds, stores the validated budget in `num_budgets`, binds
`targets_class` as the single-element label list `[tc]`, and leaves the
`Ready` state (`is_reseted = false`). -/
theorem backdoor_attack_success (s : BackdoorAttacker) (nb : Nat) (tc : Int)
    (hr : s.is_reseted = true) (hb : nb ≤ s.num_feats) :
    (s.attack nb tc).1 = none ∧
    (s.attack nb tc).2.num_budgets = some nb ∧
    (s.attack nb tc).2.targets_class = some [tc] ∧
    (s.attack nb tc).2.is_reseted = false := by
  unfold BackdoorAttacker.attack
  rw [hr]
  simp [check_budget, Nat.not_lt.mpr hb]

theorem backdoor_attack_success_witness :
    sampleReady.is_reseted = true ∧ 2 ≤ sampleReady.num_feats ∧
    ((sampleReady.attack 2 5).1 = none ∧
     (sampleReady.attack 2 5).2.num_budgets = some 2 ∧
     (sampleReady.attack 2 5).2.targets_class = some [5] ∧
     (sampleReady.attack 2 5).2.is_reseted = false) :=
  ⟨rfl, by decide, backdoor_attack_success sampleReady 2 5 rfl (by decide)⟩

theorem run_no_reset_keeps_unreset (s : BackdoorAttacker) (ops : List AttackOp)
    (hs : s.is_reseted = false) (hops : AttackOp.reset ∉ ops) :
    (s.run ops).is_reseted = false := by
  induction ops generalizing s with
  | nil => exact hs
  | cons op rest ih =>
      have hop : op ≠ AttackOp.reset := fun h => hops (h ▸ List.mem_cons_self _ _)
      have hrest : AttackOp.reset ∉ rest := fun h => hops (List.mem_cons_of_mem _ h)
      show ((s.step op).run rest).is_reseted = false
      refine ih _ ?_ hrest
      cases op with
      | reset => exact absurd rfl hop
      | attack nb tc =>
          show (s.attack nb tc).2.is_reseted = false
          rw [backdoor_attack_unreset s nb tc hs]
          exact hs
      | materialize t sym => exact hs

theorem attack_success_clears_reseted (s s' : BackdoorAttacker) (nb : Nat) (tc : Int)
    (h : s.attack nb tc = (none, s')) : s'.is_reseted = false := by
  unfold BackdoorAttacker.attack at h
  split at h
  · exact absurd (Prod.mk.injEq _ _ _ _ ▸ h).1 (by simp)
  · rcases hc : check_budget nb s.num_feats with e | v <;> rw [hc] at h <;>
      simp only [Prod.mk.injEq] at h
    · exact absurd h.1 (by simp)
    · rw [← h.2]

/-- C6: a session never executes two attacks on one reset: after a
successful `attack`, any further calls that do not include a `reset`
leave the session unable to attack — the next `attack` raises
`NotReadyError`. -/
theorem backdoor_no_double_attack (s s' : BackdoorAttacker) (nb : Nat) (tc1 : Int)
    (nb2 : Nat) (tc2 : Int) (ops : List AttackOp)
    (h1 : s.attack nb tc1 = (none, s'))
    (h2 : AttackOp.reset ∉ ops) :
    (s'.run ops).attack nb2 tc2 = (some AttackError.NotReadyError, s'.run ops) :=
  backdoor_attack_unreset _ nb2 tc2
    (run_no_reset_keeps_unreset s' ops (attack_success_clears_reseted s s' nb tc1 h1) h2)

def sampleAttacked : BackdoorAttacker := (sampleReady.attack 1 0).2

theorem backdoor_no_double_attack_witness :
    sampleReady.attack 1 0 = (none, sampleAttacked) ∧
    (sampleAttacked.run [AttackOp.materialize 0 true]).attack 1 0 =
      (some AttackError.NotReadyError, sampleAttacked.run [AttackOp.materialize 0 true]) :=
  ⟨rfl, backdoor_no_double_attack sampleReady sampleAttacked 1 0 1 0
    [AttackOp.materialize 0 true] rfl (by decide)⟩

/-- C1: after an attack, with a trigger of the feature dimension
stored, `g(target_node, symmetric)` yields a graph with exactly
`num_nodes + 1` nodes where the new node (id `num_nodes`) carries the
trigger as its feature row, has the edge `(new_node, target_node)`,
has the mirrored edge `(target_node, new_node)` exactly when
`symmetric = true`, and has the self-loop `(new_node, new_node)`. -/
theorem backdoor_g_spec (s : BackdoorAttacker) (target_node : Nat) (symmetric : Bool)
    (tr : List ℚ)
    (hA : s.is_reseted = false)
    (ht : s.trigger_vec = some tr)
    (hdim : tr.length = s.num_feats)
    (hfeat : s.graph.features.length = s.graph.num_nodes)
    (hedges : ∀ e ∈ s.graph.edges, e.1 < s.graph.num_nodes ∧ e.2 < s.graph.num_nodes)
    (htarget : target_node < s.graph.num_nodes) :
    ∃ G, s.g target_node symmetric = some G ∧
      G.num_nodes = s.graph.num_nodes + 1 ∧
      G.features[s.graph.num_nodes]? = some tr ∧
      (s.graph.num_nodes, target_node) ∈ G.edges ∧
      ((target_node, s.graph.num_nodes) ∈ G.edges ↔ symmetric = true) ∧
      (s.graph.num_nodes, s.graph.num_nodes) ∈ G.edges := by
  refine ⟨_, by rw [BackdoorAttacker.g, ht], ?_, ?_, ?_, ?_, ?_⟩
  · cases symmetric <;> rfl
  · cases symmetric <;>
      (show ((s.graph.features ++ [tr])[s.graph.num_nodes]?) = some tr;
       rw [← hfeat]; simp)
  · cases symmetric <;> simp [Graph.addEdge, Graph.addNode]
  · cases symmetric with
    | false =>
        simp [Graph.addEdge, Graph.addNode]
        refine ⟨fun hmem => ?_, fun h1 h2 => ?_, fun h => ?_⟩
        · exact absurd (hedges _ hmem).2 (lt_irrefl _)
        · omega
        · omega
    | true => simp [Graph.addEdge, Graph.addNode]
  · cases symmetric <;> simp [Graph.addEdge, Graph.addNode]

/-- A concrete attacked session with a stored 2-dimensional trigger. -/
def sampleDone : BackdoorAttacker :=
  ⟨sampleGraph, 2, some 2, some [3, 4], some [1], false⟩

theorem backdoor_g_spec_witness :
    sampleDone.trigger_vec = some [3, 4] ∧
    (∃ G, sampleDone.g 1 false = some G ∧
      G.num_nodes = sampleDone.graph.num_nodes + 1 ∧
      G.features[sampleDone.graph.num_nodes]? = some [3, 4] ∧
      (sampleDone.graph.num_nodes, 1) ∈ G.edges ∧
      ((1, sampleDone.graph.num_nodes) ∈ G.edges ↔ false = true) ∧
      (sampleDone.graph.num_nodes, sampleDone.graph.num_nodes) ∈ G.edges) :=
  ⟨rfl, backdoor_g_spec sampleDone 1 false [3, 4] rfl rfl (by decide) (by decide)
    (by decide) (by decide)⟩

/-- Modelled from the spec: `BudgetLedger` (§4.2) is not among the
provided source files (the targeted attacker `GFAttack` is present only
through its example driver `examples/attack/targeted/gf_attack.py`).
"`reserve(n)` fails with `BudgetExceeded` if `spent + n > max_budget`;
otherwise commits and returns the new `spent`." -/
structure BudgetLedger where
  max_budget : Nat
  spent : Nat
  deriving DecidableEq, Repr

def BudgetLedger.reserve (l : BudgetLedger) (n : Nat) : Except AttackError BudgetLedger :=
  if l.max_budget < l.spent + n then .error .BudgetExceeded
  else .ok { l with spent := l.spent + n }

/-- Modelled from the spec: the greedy commit loop of the targeted
structure attacker (§4.4 steps 3-5), whose implementation is not among
the provided source files.  The input list is the ranked eligible
candidates; each commit consults `reserve 1` first and the loop stops
when the ledger rejects. -/
def greedyCommit (cands : List (Nat × Nat)) (l : BudgetLedger) :
    BudgetLedger × List (Nat × Nat) :=
  match cands with
  | [] => (l, [])
  | c :: cs =>
    match l.reserve 1 with
    | .error _ => (l, [])
    | .ok l2 =>
      let r := greedyCommit cs l2
      (r.1, c :: r.2)

/-- Modelled from the spec: one `attack()` invocation of the targeted
structure attacker with budget `B` runs the greedy commit loop on the
ranked eligible candidates with a zeroed ledger. -/
def targetedAttack (cands : List (Nat × Nat)) (B : Nat) :
    BudgetLedger × List (Nat × Nat) :=
  greedyCommit cands ⟨B, 0⟩

theorem greedyCommit_spec (cands : List (Nat × Nat)) (l : BudgetLedger)
    (h : l.spent ≤ l.max_budget) :
    (greedyCommit cands l).1.spent = min l.max_budget (l.spent + cands.length) ∧
    (greedyCommit cands l).2 = cands.take (l.max_budget - l.spent) := by
  induction cands generalizing l with
  | nil =>
      refine ⟨?_, by simp [greedyCommit]⟩
      simp only [greedyCommit, List.length_nil, Nat.add_zero]
      omega
  | cons c cs ih =>
      by_cases hb : l.max_budget < l.spent + 1
      · have hs : l.spent = l.max_budget := by omega
        refine ⟨?_, ?_⟩ <;>
          simp only [greedyCommit, BudgetLedger.reserve, if_pos hb, List.length_cons]
        · omega
        · have h0 : l.max_budget - l.spent = 0 := by omega
          rw [h0, List.take_zero]
      · have hstep : l.reserve 1 = .ok ⟨l.max_budget, l.spent + 1⟩ := by
          simp [BudgetLedger.reserve, hb]
        obtain ⟨ih1, ih2⟩ := ih ⟨l.max_budget, l.spent + 1⟩ (by dsimp only; omega)
        dsimp only at ih1 ih2
        refine ⟨?_, ?_⟩ <;> simp only [greedyCommit, hstep, List.length_cons]
        · rw [ih1]; omega
        · rw [ih2]
          have hk : l.max_budget - l.spent = (l.max_budget - (l.spent + 1)) + 1 := by
            omega
          rw [hk, List.take_succ_cons]

/-- C9: with budget `B` and a ranked eligible-candidate list, the
targeted structure attacker commits exactly `B` flips with
`spent = B` when `B` is at most the candidate count; when `B` exceeds
the candidate count it commits all eligible candidates and finishes
with `spent` equal to the candidate count, strictly below `B`, with no
error. -/
theorem targeted_budget_spec (cands : List (Nat × Nat)) (B : Nat) :
    (B ≤ cands.length →
      (targetedAttack cands B).2.length = B ∧ (targetedAttack cands B).1.spent = B) ∧
    (cands.length < B →
      (targetedAttack cands B).2 = cands ∧
      (targetedAttack cands B).1.spent = cands.length ∧
      (targetedAttack cands B).1.spent < B) := by
  obtain ⟨h1, h2⟩ := greedyCommit_spec cands ⟨B, 0⟩ (Nat.zero_le _)
  dsimp only at h1 h2
  simp only [targetedAttack]
  constructor
  · intro hB
    refine ⟨?_, ?_⟩
    · rw [h2, List.length_take]; omega
    · rw [h1]; omega
  · intro hB
    have hall : cands.take (B - 0) = cands := List.take_of_length_le (by omega)
    refine ⟨?_, ?_, ?_⟩
    · rw [h2]; exact hall
    · rw [h1]; omega
    · rw [h1]; omega

def sampleCands : List (Nat × Nat) := [(1, 0), (1, 3)]

theorem targeted_budget_spec_witness :
    (2 ≤ sampleCands.length ∧
      (targetedAttack sampleCands 2).2.length = 2 ∧
      (targetedAttack sampleCands 2).1.spent = 2) ∧
    (sampleCands.length < 5 ∧
      (targetedAttack sampleCands 5).2 = sampleCands ∧
      (targetedAttack sampleCands 5).1.spent = sampleCands.length ∧
      (targetedAttack sampleCands 5).1.spent < 5) :=
  ⟨⟨by decide, (targeted_budget_spec sampleCands 2).1 (by decide)⟩,
   ⟨by decide, (targeted_budget_spec sampleCands 5).2 (by decide)⟩⟩

/-- `CKA._HSIC` (`cka.py` lines 164-176): the unbiased HSIC estimate
on square kernel matrices of side `n`, with `trace(K @ L)` plus
`(1ᵀK1)(1ᵀL1) / ((N-1)(N-2))` minus `2 (1ᵀ K L 1) / (N-2)`, all
scaled by `1 / (N (N-3))`.  The value is `none` exactly when one of
the three denominators is zero (the Python float computation divides
by zero there). -/
def HSIC {n : ℕ} (K L : Matrix (Fin n) (Fin n) ℚ) : Option ℚ :=
  let N : ℚ := (n : ℚ)
  if (N - 1) * (N - 2) = 0 ∨ N - 2 = 0 ∨ N * (N - 3) = 0 then none
  else
    some ((1 / (N * (N - 3))) *
      (Matrix.trace (K * L)
        + ((∑ i, ∑ j, K i j) * (∑ i, ∑ j, L i j)) / ((N - 1) * (N - 2))
        - 2 * (∑ i, ∑ j, (K * L) i j) / (N - 2)))

/-- C10: `_HSIC` is well-defined exactly when the kernel side length is
at least 4: for `n ≥ 4` all three denominators `(N-1)(N-2)`, `N-2` and
`N(N-3)` are nonzero, while for `n ≤ 3` at least one is zero, so
`CKA.compare` on feature batches with fewer than 4 rows divides by
zero. -/
theorem hsic_welldefined_iff (n : ℕ) (K L : Matrix (Fin n) (Fin n) ℚ) :
    (HSIC K L).isSome = true ↔ 4 ≤ n := by
  unfold HSIC
  dsimp only
  split
  · case isTrue h =>
      simp only [Option.isSome_none, Bool.false_eq_true, false_iff]
      intro h4
      have hn : (4 : ℚ) ≤ (n : ℚ) := by exact_mod_cast h4
      rcases h with h | h | h
      · rcases mul_eq_zero.mp h with h' | h' <;> nlinarith
      · nlinarith
      · rcases mul_eq_zero.mp h with h' | h' <;> nlinarith
  · case isFalse h =>
      simp only [Option.isSome_some, true_iff]
      by_contra h4
      push_neg at h4
      interval_cases n <;> exact h (by norm_num)
